import Mathlib

/-!
Verification development for the `pump`/`kimchi` binary serialization codec.

The repository's visible C sources are:
* `src/kimchi/utils/serialize.c` — the envelope dispatch layer: `serialize`
  (tag selection via `getType`, per-kind body serializer, header construction,
  concatenation) and `deserialize` (header parsing and per-tag dispatch).
* `src/pump/utils/types.c` — `getType`, runtime type detection of host
  (Python) values.

The per-kind body codecs (`serializeLong`, `deserializeList`, …), the header
codec (`constructHeaders` / `parseHeaders`) and the tag constant table live in
files that are not part of the visible sources; those are modelled from the
specification (sections 4.1-4.4 and 6) and are marked `Modelled from the
spec:` in their doc comments.  Bytes are modelled as `Nat` values below 256,
buffers as `List Nat`; the C size type `unsigned long long` shows up as
explicit `< 2 ^ 64` side conditions.
-/

/-! ### Tag constants

Modelled from the spec: the one-byte tag table (`pump.h` / `kimchi.h` is not
among the visible sources).  §6 fixes one constant per variant, with the
integer sign classes and the boolean truth values folded into the tag.  The
concrete values 1 (int), 5 (string/bytes), 8 (list) and 9 (tuple) are pinned
by the serialized examples in the repository README (`'\x01\x81{'` for `123`,
`'\x05\x83123'` for `"123"`, `'\x08…'`/`'\x09…'` for the list/tuple example);
the remaining values are chosen distinct, which is all the code relies on. -/

def INT_TYPE : Nat := 1
def NEG_INT_TYPE : Nat := 2
def LONG_TYPE : Nat := 3
def NEG_LONG_TYPE : Nat := 4
/-- `STRING_TYPE` in `pump/utils/types.c`; `serialize.c` (the later `kimchi`
rename of the same codebase) calls the same constant `BYTES_TYPE`. -/
def STRING_TYPE : Nat := 5
def BYTES_TYPE : Nat := 5
def UNICODE_TYPE : Nat := 6
def FLOAT_TYPE : Nat := 7
def LIST_TYPE : Nat := 8
def TUPLE_TYPE : Nat := 9
def DICT_TYPE : Nat := 10
def SET_TYPE : Nat := 11
def FROZEN_SET_TYPE : Nat := 12
def NONE_TYPE : Nat := 13
def BOOL_TRUE_TYPE : Nat := 14
def BOOL_FALSE_TYPE : Nat := 15

/-! ### Minimal big-endian byte strings -/

/-- Minimal big-endian byte string of a natural number (empty for zero),
with an explicit structural fuel so that the definition computes by `rfl`;
`toBytesBE` instantiates the fuel with the number itself, which always
suffices. -/
def toBytesBEAux : Nat → Nat → List Nat
  | _, 0 => []
  | 0, _ + 1 => []
  | f + 1, m + 1 => toBytesBEAux f ((m + 1) / 256) ++ [(m + 1) % 256]

/-- Minimal big-endian byte string of a natural number; the magnitude format
of §4.3 ("minimal-length big-endian bytes of the absolute value"). -/
def toBytesBE (n : Nat) : List Nat := toBytesBEAux n n

/-- Read a big-endian byte string back as a natural number. -/
def fromBytesBE (bs : List Nat) : Nat := bs.foldl (fun acc b => acc * 256 + b) 0

theorem toBytesBEAux_zero (f : Nat) : toBytesBEAux f 0 = [] := by
  cases f <;> rfl

theorem toBytesBEAux_fuel : ∀ n f, n ≤ f → toBytesBEAux f n = toBytesBE n := by
  intro n
  induction n using Nat.strong_induction_on with
  | _ n ih =>
    intro f h
    match n, f with
    | 0, f => rw [toBytesBEAux_zero]; rfl
    | m + 1, 0 => omega
    | m + 1, f + 1 =>
      have hlt : (m + 1) / 256 < m + 1 := Nat.div_lt_self (by omega) (by omega)
      show toBytesBEAux f ((m + 1) / 256) ++ [(m + 1) % 256] = toBytesBE (m + 1)
      rw [ih ((m + 1) / 256) hlt f (by omega)]
      show _ = toBytesBEAux (m + 1) (m + 1)
      show _ = toBytesBEAux m ((m + 1) / 256) ++ [(m + 1) % 256]
      rw [ih ((m + 1) / 256) hlt m (by omega)]

theorem toBytesBE_zero : toBytesBE 0 = [] := rfl

theorem toBytesBE_succ (n : Nat) (h : 0 < n) :
    toBytesBE n = toBytesBE (n / 256) ++ [n % 256] := by
  obtain ⟨m, rfl⟩ : ∃ m, n = m + 1 := ⟨n - 1, by omega⟩
  show toBytesBEAux m ((m + 1) / 256) ++ [(m + 1) % 256] = _
  rw [toBytesBEAux_fuel ((m + 1) / 256) m (by
    have : (m + 1) / 256 < m + 1 := Nat.div_lt_self (by omega) (by omega)
    omega)]

theorem fromBytesBE_append_singleton (bs : List Nat) (b : Nat) :
    fromBytesBE (bs ++ [b]) = fromBytesBE bs * 256 + b := by
  simp [fromBytesBE]

/-- Reading back the minimal big-endian byte string recovers the number. -/
theorem fromBytesBE_toBytesBE (n : Nat) : fromBytesBE (toBytesBE n) = n := by
  induction n using Nat.strong_induction_on with
  | _ n ih =>
    rcases Nat.eq_zero_or_pos n with rfl | hpos
    · rfl
    · rw [toBytesBE_succ n hpos, fromBytesBE_append_singleton,
        ih (n / 256) (Nat.div_lt_self hpos (by omega))]
      omega

/-- `n < 256 ^ k` needs at most `k` big-endian bytes. -/
theorem toBytesBE_length_le {n k : Nat} (h : n < 256 ^ k) :
    (toBytesBE n).length ≤ k := by
  induction k generalizing n with
  | zero =>
    interval_cases n
    simp [toBytesBE_zero]
  | succ k ih =>
    rcases Nat.eq_zero_or_pos n with rfl | hpos
    · simp [toBytesBE_zero]
    · rw [toBytesBE_succ n hpos]
      have : n / 256 < 256 ^ k := by
        rw [Nat.div_lt_iff_lt_mul (by omega)]
        calc n < 256 ^ (k + 1) := h
        _ = 256 ^ k * 256 := by ring
      have := ih this
      simp only [List.length_append, List.length_cons, List.length_nil]
      omega

/-- Every byte `toBytesBE` emits is below 256. -/
theorem toBytesBE_lt_256 (n : Nat) : ∀ b ∈ toBytesBE n, b < 256 := by
  induction n using Nat.strong_induction_on with
  | _ n ih =>
    rcases Nat.eq_zero_or_pos n with rfl | hpos
    · simp [toBytesBE_zero]
    · rw [toBytesBE_succ n hpos]
      intro b hb
      rcases List.mem_append.mp hb with h | h
      · exact ih (n / 256) (Nat.div_lt_self hpos (by omega)) b h
      · simp only [List.mem_singleton] at h
        subst h
        exact Nat.mod_lt _ (by omega)

/-! ### The VarSize codec

Modelled from the spec: `constructHeaders` / `parseHeaders` are not among the
visible sources.  §4.1: a size `n ≤ 127` is one byte `0x80 | n` (high bit
set, value in the low 7 bits); a larger size is a first byte holding, with
high bit clear, the count `k` of minimal big-endian magnitude bytes, followed
by those `k` bytes.  Sizes are C `unsigned long long` values, i.e. below
`2 ^ 64`, so `k ≤ 8` and the count byte never collides with the high-bit
flag. -/

def encodeSize (n : Nat) : List Nat :=
  if n ≤ 127 then [128 + n]
  else (toBytesBE n).length :: toBytesBE n

/-- Read one VarSize value from the front of a buffer, returning it together
with the unconsumed tail; `none` is the buffer-underrun failure of §4.1. -/
def decodeSize : List Nat → Option (Nat × List Nat)
  | [] => none
  | b :: rest =>
    if 128 ≤ b then some (b - 128, rest)
    else if rest.length < b then none
    else some (fromBytesBE (rest.take b), rest.drop b)

theorem encodeSize_length_pos (n : Nat) : 1 ≤ (encodeSize n).length := by
  unfold encodeSize
  split <;> simp

theorem encodeSize_length_le {n : Nat} (h : n < 2 ^ 64) :
    (encodeSize n).length ≤ 9 := by
  unfold encodeSize
  split
  · simp
  · have : n < 256 ^ 8 := by norm_num at h ⊢; omega
    have := toBytesBE_length_le this
    simp only [List.length_cons]
    omega

/-- Decoding the VarSize encoding of any size in the C size type's range
recovers the size and consumes exactly the encoding. -/
theorem decodeSize_encodeSize {n : Nat} (h : n < 2 ^ 64) (rest : List Nat) :
    decodeSize (encodeSize n ++ rest) = some (n, rest) := by
  unfold encodeSize decodeSize
  by_cases h127 : n ≤ 127
  · simp [h127]
  · have hk : (toBytesBE n).length ≤ 8 := by
      have : n < 256 ^ 8 := by norm_num at h ⊢; omega
      exact toBytesBE_length_le this
    simp only [h127, if_false, List.cons_append]
    rw [if_neg (by omega)]
    rw [if_neg (by simp)]
    rw [List.take_left, List.drop_left]
    simp [fromBytesBE_toBytesBE]

/-! ### Fixed-width big-endian byte strings (float payload) -/

/-- `k` big-endian bytes holding the low `8 * k` bits of `n`; used for the
fixed 8-byte IEEE-754 double bit pattern payload of §4.3. -/
def toBytesBEFixed : Nat → Nat → List Nat
  | 0, _ => []
  | k + 1, n => toBytesBEFixed k (n / 256) ++ [n % 256]

theorem toBytesBEFixed_length (k n : Nat) : (toBytesBEFixed k n).length = k := by
  induction k generalizing n with
  | zero => rfl
  | succ k ih => simp [toBytesBEFixed, ih]

theorem fromBytesBE_toBytesBEFixed {k n : Nat} (h : n < 256 ^ k) :
    fromBytesBE (toBytesBEFixed k n) = n := by
  induction k generalizing n with
  | zero =>
    interval_cases n
    rfl
  | succ k ih =>
    have : n / 256 < 256 ^ k := by
      rw [Nat.div_lt_iff_lt_mul (by omega)]
      calc n < 256 ^ (k + 1) := h
      _ = 256 ^ k * 256 := by ring
    rw [toBytesBEFixed, fromBytesBE_append_singleton, ih this]
    omega

/-! ### Envelope headers

Modelled from the spec: `constructHeaders` / `parseHeaders` are declared in
`serialize.c` but defined in a file outside the visible sources.  §4.2 and the
wire grammar of §6: an envelope is `tag:u8 size:VarSize body:u8[size]`, and
the decoder fails with a buffer underrun when fewer than `size` bytes remain
after the header. -/

/-- Headers of one envelope: the tag byte followed by the VarSize-encoded
body length (README trace: `dumps(123) = '\x01\x81{'`, tag first). -/
def constructHeaders (bodySize t : Nat) : List Nat := t :: encodeSize bodySize

/-- A whole envelope: headers then body (`serialize.c` lines 115-122
concatenates `headers` and `body` in that order). -/
def mkEnvelope (t : Nat) (body : List Nat) : List Nat :=
  constructHeaders body.length t ++ body

/-- Read the tag byte and VarSize body length off the front of a buffer,
failing (`none`) on an empty buffer, a VarSize underrun, or fewer remaining
bytes than the declared body length. -/
def parseHeaders (buf : List Nat) : Option (Nat × Nat × List Nat) :=
  match buf with
  | [] => none
  | t :: rest =>
    match decodeSize rest with
    | none => none
    | some (sz, rest') => if rest'.length < sz then none else some (t, sz, rest')

theorem parseHeaders_mkEnvelope {t : Nat} {body : List Nat}
    (h : body.length < 2 ^ 64) (rest : List Nat) :
    parseHeaders (mkEnvelope t body ++ rest) = some (t, body.length, body ++ rest) := by
  unfold mkEnvelope constructHeaders parseHeaders
  simp only [List.cons_append, List.append_assoc]
  rw [decodeSize_encodeSize h]
  have hlen : ¬ ((body ++ rest).length < body.length) := by simp
  simp [hlen]

/-! ### The host value model

The host side of the codec: a snapshot of the Python values `getType`
inspects.  Each constructor that corresponds to a concrete Python type
carries an `exactType` flag: `true` models an instance whose type is exactly
the builtin type, `false` an instance of a strict subclass.  This is the
distinction the CPython `Py…_CheckExact` macros (exact type equality) draw
against `PyString_Check` / `PyUnicode_Check` (which accept subclasses).
`pyBool` models instances of `bool` (a strict subclass of `int` whose type
is neither `int` nor `long` exactly); `pyOther` models any object of a type
the codec does not know.  `pyInt` is the Python 2 machine `int` (the build in
which all of `types.c` is live), `pyLong` the arbitrary-precision integer
whose `ob_size` field is negative exactly when its value is negative. -/

inductive PyObj : Type where
  | pyInt (v : Int) (exactType : Bool)
  | pyLong (v : Int) (exactType : Bool)
  | pyFloat (bits : Nat) (exactType : Bool)
  | pyStr (bs : List Nat) (exactType : Bool)
  | pyUnicode (bs : List Nat) (exactType : Bool)
  | pyList (elems : List PyObj) (exactType : Bool)
  | pyTuple (elems : List PyObj) (exactType : Bool)
  | pyDict (entries : List (PyObj × PyObj)) (exactType : Bool)
  | pySet (elems : List PyObj) (exactType : Bool)
  | pyFrozenSet (elems : List PyObj) (exactType : Bool)
  | pyBool (b : Bool)
  | pyNone
  | pyOther (typeName : String)
deriving Repr

/-- Model of `getType` (src/pump/utils/types.c, lines 23-71): an if-else
chain of type tests, returning a tag constant, or 0 when no test matches.
The branches test, in source order: `PyInt_CheckExact` (then
`PyLong_AsLongLong(obj) < 0` picks the negative tag), `PyLong_CheckExact`
(then `ob_size < 0`, i.e. value strictly negative, picks the negative tag),
`PyFloat_CheckExact`, `PyString_Check` (subclasses included),
`PyUnicode_Check` (subclasses included), `PyList_CheckExact`,
`PyTuple_CheckExact`, `PyDict_CheckExact`, `obj == Py_None`,
`PyAnySet_CheckExact` (with `PyFrozenSet_CheckExact` distinguishing the two
set tags).  The constructors of `PyObj` are mutually exclusive, so the chain
is rendered as a match; a `CheckExact` test succeeds only when `exactType`
is set.  `pyBool` instances fail every branch — `bool` is its own type, so
no `CheckExact` test matches, and `bool` is not a string subclass — and fall
through to the error return 0, as does `pyOther`. -/
def getType : PyObj → Nat
  | .pyInt v e => if e then (if v < 0 then NEG_INT_TYPE else INT_TYPE) else 0
  | .pyLong v e => if e then (if v < 0 then NEG_LONG_TYPE else LONG_TYPE) else 0
  | .pyFloat _ e => if e then FLOAT_TYPE else 0
  | .pyStr _ _ => STRING_TYPE
  | .pyUnicode _ _ => UNICODE_TYPE
  | .pyList _ e => if e then LIST_TYPE else 0
  | .pyTuple _ e => if e then TUPLE_TYPE else 0
  | .pyDict _ e => if e then DICT_TYPE else 0
  | .pyNone => NONE_TYPE
  | .pySet _ e => if e then SET_TYPE else 0
  | .pyFrozenSet _ e => if e then FROZEN_SET_TYPE else 0
  | .pyBool _ => 0
  | .pyOther _ => 0

/-! ### The serializer

`serialize` (src/kimchi/utils/serialize.c, lines 22-129): obtain the tag via
`getType`, returning failure immediately when it is 0 (lines 38-40); dispatch
on the tag to the per-kind body serializer, returning failure if it fails
(lines 42-110); build the headers and concatenate headers and body (lines
112-122).  The per-kind body serializers are not among the visible sources
and are modelled from the spec:
* integers (§4.3): minimal big-endian magnitude of the absolute value, sign
  carried by the tag; zero is the empty magnitude;
* float (§4.3): the 8-byte IEEE-754 double bit pattern, fixed width;
* bytes/text (§4.3): the raw payload bytes, copied verbatim;
* list/tuple/set/frozenset (§4.4): VarSize element count, then each
  element's envelope, via recursive calls back into `serialize`;
* mapping (§4.4): VarSize pair count, then key envelope and value envelope
  for each pair in source order;
* boolean/none (§4.3): empty body (the boolean branch is unreachable here
  because `getType` returns 0 for `pyBool`, see `C2`).
The dispatch is rendered as a match on the value's constructor, which the
tag returned by `getType` determines uniquely. -/

mutual

def serialize (obj : PyObj) : Option (List Nat) :=
  if getType obj = 0 then none
  else
    match obj with
    | .pyInt v _ =>
      some (mkEnvelope (if v < 0 then NEG_INT_TYPE else INT_TYPE) (toBytesBE v.natAbs))
    | .pyLong v _ =>
      some (mkEnvelope (if v < 0 then NEG_LONG_TYPE else LONG_TYPE) (toBytesBE v.natAbs))
    | .pyFloat bits _ => some (mkEnvelope FLOAT_TYPE (toBytesBEFixed 8 bits))
    | .pyStr bs _ => some (mkEnvelope BYTES_TYPE bs)
    | .pyUnicode bs _ => some (mkEnvelope UNICODE_TYPE bs)
    | .pyList xs _ =>
      match serializeElems xs with
      | none => none
      | some body => some (mkEnvelope LIST_TYPE (encodeSize xs.length ++ body))
    | .pyTuple xs _ =>
      match serializeElems xs with
      | none => none
      | some body => some (mkEnvelope TUPLE_TYPE (encodeSize xs.length ++ body))
    | .pyDict ps _ =>
      match serializePairs ps with
      | none => none
      | some body => some (mkEnvelope DICT_TYPE (encodeSize ps.length ++ body))
    | .pySet xs _ =>
      match serializeElems xs with
      | none => none
      | some body => some (mkEnvelope SET_TYPE (encodeSize xs.length ++ body))
    | .pyFrozenSet xs _ =>
      match serializeElems xs with
      | none => none
      | some body => some (mkEnvelope FROZEN_SET_TYPE (encodeSize xs.length ++ body))
    | .pyBool b =>
      some (mkEnvelope (if b then BOOL_TRUE_TYPE else BOOL_FALSE_TYPE) [])
    | .pyNone => some (mkEnvelope NONE_TYPE [])
    | .pyOther _ => none

/-- The concatenation of the envelopes of a container's elements in source
order (§4.4); fails as soon as one element fails to serialize. -/
def serializeElems : List PyObj → Option (List Nat)
  | [] => some []
  | x :: xs =>
    match serialize x with
    | none => none
    | some bx =>
      match serializeElems xs with
      | none => none
      | some bxs => some (bx ++ bxs)

/-- Key envelope then value envelope for each mapping entry in source
iteration order (§4.4). -/
def serializePairs : List (PyObj × PyObj) → Option (List Nat)
  | [] => some []
  | (k, v) :: ps =>
    match serialize k with
    | none => none
    | some bk =>
      match serialize v with
      | none => none
      | some bv =>
        match serializePairs ps with
        | none => none
        | some bps => some (bk ++ bv ++ bps)

end

/-- The caller-visible output state of `serialize`'s two out-parameters
(`char **out`, `Py_ssize_t *outSize`). -/
structure SerializeOut : Type where
  out : Option (List Nat)
  outSize : Nat
deriving Repr, DecidableEq

/-- Model of the C calling convention of `serialize(object, &out, &outSize)`:
the status code together with the final out-parameter state.  Every failure
path of `serialize` returns 1 before the writes to `*out` / `*outSize` (the
`getType` gate at lines 38-40 and every per-kind failure at lines 42-110
return before lines 115-122), so a failing call leaves the caller's state
untouched; a succeeding call stores the envelope and its length. -/
def serializeC (obj : PyObj) (s : SerializeOut) : Nat × SerializeOut :=
  match serialize obj with
  | none => (1, s)
  | some envelope => (0, { out := some envelope, outSize := envelope.length })

/-! ### The deserializer

`deserialize` (src/kimchi/utils/serialize.c, lines 131-191): parse the
headers off the buffer (failing if they fail), then dispatch on the tag to
the per-kind decoder; a tag outside the table falls through the switch to the
unrecognized-type error (lines 186-190).  The per-kind decoders are not among
the visible sources and are modelled from the spec (§4.3, §4.4): integers
read the body as a big-endian magnitude and apply the tag's sign; floats read
the fixed 8-byte bit pattern; bytes/text take the body verbatim; containers
read a VarSize element (or pair) count and then call back into the envelope
decoder that many times; booleans and none are produced from the tag alone
(`deserializeBool(type)` / `deserializeNone()` receive no buffer).  The
C recursion consumes at least the tag byte per envelope, so the buffer length
bounds the recursion depth; the model makes that explicit with a structural
fuel parameter that `deserialize` instantiates with the buffer length. -/

/-- Decode `n` consecutive element envelopes with the envelope decoder `f`,
returning them in order with the unconsumed tail (§4.4 container decode). -/
def decodeElems (f : List Nat → Option (PyObj × List Nat)) :
    Nat → List Nat → Option (List PyObj × List Nat)
  | 0, buf => some ([], buf)
  | n + 1, buf =>
    match f buf with
    | none => none
    | some (v, buf') =>
      match decodeElems f n buf' with
      | none => none
      | some (vs, buf'') => some (v :: vs, buf'')

/-- Decode `n` consecutive key/value envelope pairs with the envelope decoder
`f` (§4.4 mapping decode). -/
def decodePairs (f : List Nat → Option (PyObj × List Nat)) :
    Nat → List Nat → Option (List (PyObj × PyObj) × List Nat)
  | 0, buf => some ([], buf)
  | n + 1, buf =>
    match f buf with
    | none => none
    | some (k, buf') =>
      match f buf' with
      | none => none
      | some (v, buf'') =>
        match decodePairs f n buf'' with
        | none => none
        | some (ps, buf''') => some ((k, v) :: ps, buf''')

def deserializeF : Nat → List Nat → Option (PyObj × List Nat)
  | 0, _ => none
  | fuel + 1, buf =>
    match parseHeaders buf with
    | none => none
    | some (t, sz, rest) =>
      if t = INT_TYPE then
        some (.pyInt (Int.ofNat (fromBytesBE (rest.take sz))) true, rest.drop sz)
      else if t = NEG_INT_TYPE then
        some (.pyInt (-Int.ofNat (fromBytesBE (rest.take sz))) true, rest.drop sz)
      else if t = LONG_TYPE then
        some (.pyLong (Int.ofNat (fromBytesBE (rest.take sz))) true, rest.drop sz)
      else if t = NEG_LONG_TYPE then
        some (.pyLong (-Int.ofNat (fromBytesBE (rest.take sz))) true, rest.drop sz)
      else if t = FLOAT_TYPE then
        if rest.length < 8 then none
        else some (.pyFloat (fromBytesBE (rest.take 8)) true, rest.drop 8)
      else if t = UNICODE_TYPE then
        some (.pyUnicode (rest.take sz) true, rest.drop sz)
      else if t = BYTES_TYPE then
        some (.pyStr (rest.take sz) true, rest.drop sz)
      else if t = LIST_TYPE then
        match decodeSize rest with
        | none => none
        | some (cnt, rest') =>
          match decodeElems (deserializeF fuel) cnt rest' with
          | none => none
          | some (xs, rest'') => some (.pyList xs true, rest'')
      else if t = TUPLE_TYPE then
        match decodeSize rest with
        | none => none
        | some (cnt, rest') =>
          match decodeElems (deserializeF fuel) cnt rest' with
          | none => none
          | some (xs, rest'') => some (.pyTuple xs true, rest'')
      else if t = DICT_TYPE then
        match decodeSize rest with
        | none => none
        | some (cnt, rest') =>
          match decodePairs (deserializeF fuel) cnt rest' with
          | none => none
          | some (ps, rest'') => some (.pyDict ps true, rest'')
      else if t = SET_TYPE then
        match decodeSize rest with
        | none => none
        | some (cnt, rest') =>
          match decodeElems (deserializeF fuel) cnt rest' with
          | none => none
          | some (xs, rest'') => some (.pySet xs true, rest'')
      else if t = FROZEN_SET_TYPE then
        match decodeSize rest with
        | none => none
        | some (cnt, rest') =>
          match decodeElems (deserializeF fuel) cnt rest' with
          | none => none
          | some (xs, rest'') => some (.pyFrozenSet xs true, rest'')
      else if t = BOOL_TRUE_TYPE then some (.pyBool true, rest)
      else if t = BOOL_FALSE_TYPE then some (.pyBool false, rest)
      else if t = NONE_TYPE then some (.pyNone, rest)
      else none

/-- Model of `deserialize(buf)`: decode one envelope off the front of the
buffer, returning the value and the cursor position (the unconsumed tail of
the `UserBuffer`), or `none` on any decode failure.  The fuel is the buffer
length, which bounds the number of envelopes the buffer can hold. -/
def deserialize (buf : List Nat) : Option (PyObj × List Nat) :=
  deserializeF buf.length buf

/-! ### Supported values -/

mutual

/-- The canonical host values the codec supports: the value kinds `getType`
accepts, recursively, in their canonical (exact builtin type) form — the
images of the spec's Value model.  Floats carry a genuine 64-bit IEEE-754
bit pattern and string payloads are genuine byte sequences.  Booleans are
not included: `getType` rejects them (see `C2_boolean_detection_bug`), so
the code produces no bytes for them. -/
def SupportedB : PyObj → Bool
  | .pyInt _ e => e
  | .pyLong _ e => e
  | .pyFloat bits e => e && decide (bits < 2 ^ 64)
  | .pyStr bs e => e && bs.all (fun b => decide (b < 256))
  | .pyUnicode bs e => e && bs.all (fun b => decide (b < 256))
  | .pyList xs e => e && SupportedElemsB xs
  | .pyTuple xs e => e && SupportedElemsB xs
  | .pyDict ps e => e && SupportedPairsB ps
  | .pySet xs e => e && SupportedElemsB xs
  | .pyFrozenSet xs e => e && SupportedElemsB xs
  | .pyBool _ => false
  | .pyNone => true
  | .pyOther _ => false

/-- All elements of a container are supported. -/
def SupportedElemsB : List PyObj → Bool
  | [] => true
  | x :: xs => SupportedB x && SupportedElemsB xs

/-- All keys and values of a mapping are supported. -/
def SupportedPairsB : List (PyObj × PyObj) → Bool
  | [] => true
  | (k, v) :: ps => SupportedB k && SupportedB v && SupportedPairsB ps

end

/-! ### Container nesting depth -/

mutual

/-- Container nesting depth of a host value: 1 for a scalar, one more than
the deepest element for a container.  This is exactly the recursion depth of
the codec on the value (§4.4: container codecs recurse once into the
envelope layer per element). -/
def height : PyObj → Nat
  | .pyList xs _ => 1 + heightElems xs
  | .pyTuple xs _ => 1 + heightElems xs
  | .pySet xs _ => 1 + heightElems xs
  | .pyFrozenSet xs _ => 1 + heightElems xs
  | .pyDict ps _ => 1 + heightPairs ps
  | _ => 1

def heightElems : List PyObj → Nat
  | [] => 0
  | x :: xs => max (height x) (heightElems xs)

def heightPairs : List (PyObj × PyObj) → Nat
  | [] => 0
  | (k, v) :: ps => max (max (height k) (height v)) (heightPairs ps)

end

/-! ### The codec's equality

The equality notion of the round-trip contract (§8): structural equality for
scalars and for List/Tuple (elementwise, in order) and Mapping (entrywise,
in order), mutual set-membership equality for Set/FrozenSet.  It compares
host values the way the host language compares them, so the `exactType`
flag — an identity of the object's runtime type, not of its value — is
ignored. -/

mutual

def pyEq : PyObj → PyObj → Bool
  | .pyInt a _, .pyInt b _ => a == b
  | .pyLong a _, .pyLong b _ => a == b
  | .pyFloat a _, .pyFloat b _ => a == b
  | .pyStr a _, .pyStr b _ => a == b
  | .pyUnicode a _, .pyUnicode b _ => a == b
  | .pyBool a, .pyBool b => a == b
  | .pyNone, .pyNone => true
  | .pyOther a, .pyOther b => a == b
  | .pyList xs _, .pyList ys _ => pyEqList xs ys
  | .pyTuple xs _, .pyTuple ys _ => pyEqList xs ys
  | .pyDict ps _, .pyDict qs _ => pyEqPairs ps qs
  | .pySet xs _, .pySet ys _ => pyEqMember xs ys && pyEqCovered xs ys
  | .pyFrozenSet xs _, .pyFrozenSet ys _ => pyEqMember xs ys && pyEqCovered xs ys
  | _, _ => false
termination_by a b => sizeOf a + sizeOf b
decreasing_by all_goals simp_wf <;> omega

/-- Elementwise equality in order (List/Tuple bodies, §8 "structural"). -/
def pyEqList : List PyObj → List PyObj → Bool
  | [], [] => true
  | x :: xs, y :: ys => pyEq x y && pyEqList xs ys
  | _, _ => false
termination_by xs ys => sizeOf xs + sizeOf ys
decreasing_by all_goals simp_wf <;> omega

/-- Entrywise equality in order (Mapping bodies, §8 "by entries"). -/
def pyEqPairs : List (PyObj × PyObj) → List (PyObj × PyObj) → Bool
  | [], [] => true
  | (k, v) :: ps, (k', v') :: qs => pyEq k k' && pyEq v v' && pyEqPairs ps qs
  | _, _ => false
termination_by ps qs => sizeOf ps + sizeOf qs
decreasing_by all_goals simp_wf <;> omega

/-- Some element of `ys` equals `x`: set membership under the codec's
equality. -/
def pyMem : PyObj → List PyObj → Bool
  | _, [] => false
  | x, y :: ys => pyEq x y || pyMem x ys
termination_by x ys => sizeOf x + sizeOf ys
decreasing_by all_goals simp_wf <;> omega

/-- Every element of `xs` is a member of `ys`. -/
def pyEqMember : List PyObj → List PyObj → Bool
  | [], _ => true
  | x :: xs, ys => pyMem x ys && pyEqMember xs ys
termination_by xs ys => sizeOf xs + sizeOf ys
decreasing_by all_goals simp_wf <;> omega

/-- Some element of `xs` equals `y`. -/
def pyMemRev : List PyObj → PyObj → Bool
  | [], _ => false
  | x :: xs, y => pyEq x y || pyMemRev xs y
termination_by xs y => sizeOf xs + sizeOf y
decreasing_by all_goals simp_wf <;> omega

/-- Every element of `ys` is matched by some element of `xs`. -/
def pyEqCovered : List PyObj → List PyObj → Bool
  | _, [] => true
  | xs, y :: ys => pyMemRev xs y && pyEqCovered xs ys
termination_by xs ys => sizeOf xs + sizeOf ys
decreasing_by all_goals simp_wf <;> omega

end

/-! ### Unfolding equations for `serialize` -/

theorem mkEnvelope_length (t : Nat) (body : List Nat) :
    (mkEnvelope t body).length = 1 + (encodeSize body.length).length + body.length := by
  simp [mkEnvelope, constructHeaders]
  omega

theorem mkEnvelope_length_ge2 (t : Nat) (body : List Nat) :
    2 ≤ (mkEnvelope t body).length := by
  have := encodeSize_length_pos body.length
  rw [mkEnvelope_length]
  omega

theorem serialize_pyInt (v : Int) :
    serialize (.pyInt v true) =
      some (mkEnvelope (if v < 0 then NEG_INT_TYPE else INT_TYPE) (toBytesBE v.natAbs)) := by
  rcases lt_or_ge v 0 with h | h <;>
    simp [serialize, getType, h, NEG_INT_TYPE, INT_TYPE, not_lt.mpr]

theorem serialize_pyLong (v : Int) :
    serialize (.pyLong v true) =
      some (mkEnvelope (if v < 0 then NEG_LONG_TYPE else LONG_TYPE) (toBytesBE v.natAbs)) := by
  rcases lt_or_ge v 0 with h | h <;>
    simp [serialize, getType, h, NEG_LONG_TYPE, LONG_TYPE, not_lt.mpr]

theorem serialize_pyFloat (bits : Nat) :
    serialize (.pyFloat bits true) = some (mkEnvelope FLOAT_TYPE (toBytesBEFixed 8 bits)) := by
  simp [serialize, getType, FLOAT_TYPE]

theorem serialize_pyStr (bs : List Nat) (e : Bool) :
    serialize (.pyStr bs e) = some (mkEnvelope BYTES_TYPE bs) := by
  simp [serialize, getType, STRING_TYPE, BYTES_TYPE]

theorem serialize_pyUnicode (bs : List Nat) (e : Bool) :
    serialize (.pyUnicode bs e) = some (mkEnvelope UNICODE_TYPE bs) := by
  simp [serialize, getType, UNICODE_TYPE]

theorem serialize_pyList (xs : List PyObj) :
    serialize (.pyList xs true) =
      (serializeElems xs).map (fun body => mkEnvelope LIST_TYPE (encodeSize xs.length ++ body)) := by
  cases h : serializeElems xs <;> simp [serialize, getType, LIST_TYPE, h]

theorem serialize_pyTuple (xs : List PyObj) :
    serialize (.pyTuple xs true) =
      (serializeElems xs).map (fun body => mkEnvelope TUPLE_TYPE (encodeSize xs.length ++ body)) := by
  cases h : serializeElems xs <;> simp [serialize, getType, TUPLE_TYPE, h]

theorem serialize_pyDict (ps : List (PyObj × PyObj)) :
    serialize (.pyDict ps true) =
      (serializePairs ps).map (fun body => mkEnvelope DICT_TYPE (encodeSize ps.length ++ body)) := by
  cases h : serializePairs ps <;> simp [serialize, getType, DICT_TYPE, h]

theorem serialize_pySet (xs : List PyObj) :
    serialize (.pySet xs true) =
      (serializeElems xs).map (fun body => mkEnvelope SET_TYPE (encodeSize xs.length ++ body)) := by
  cases h : serializeElems xs <;> simp [serialize, getType, SET_TYPE, h]

theorem serialize_pyFrozenSet (xs : List PyObj) :
    serialize (.pyFrozenSet xs true) =
      (serializeElems xs).map (fun body => mkEnvelope FROZEN_SET_TYPE (encodeSize xs.length ++ body)) := by
  cases h : serializeElems xs <;> simp [serialize, getType, FROZEN_SET_TYPE, h]

theorem serialize_pyNone :
    serialize .pyNone = some (mkEnvelope NONE_TYPE []) := by
  simp [serialize, getType, NONE_TYPE]

/-- `serialize` fails exactly on the host values `getType` rejects plus those
whose elements recursively fail; in particular every success passes the
`getType` gate. -/
theorem serialize_of_getType_eq_zero (obj : PyObj) (h : getType obj = 0) :
    serialize obj = none := by
  rw [serialize.eq_def, if_pos h]

/-! ### Length bounds on serializations -/

/-- Every successful serialization is at least two bytes (tag plus at least
one size byte). -/
theorem serialize_length_ge2 : ∀ {obj : PyObj} {bs : List Nat},
    serialize obj = some bs → 2 ≤ bs.length := by
  intro obj bs h
  cases obj with
  | pyInt v e =>
    cases e
    · rw [serialize_of_getType_eq_zero (.pyInt v false) rfl] at h; cases h
    · rw [serialize_pyInt] at h
      cases h
      exact mkEnvelope_length_ge2 _ _
  | pyLong v e =>
    cases e
    · rw [serialize_of_getType_eq_zero (.pyLong v false) rfl] at h; cases h
    · rw [serialize_pyLong] at h
      cases h
      exact mkEnvelope_length_ge2 _ _
  | pyFloat bits e =>
    cases e
    · rw [serialize_of_getType_eq_zero (.pyFloat bits false) rfl] at h; cases h
    · rw [serialize_pyFloat] at h
      cases h
      exact mkEnvelope_length_ge2 _ _
  | pyStr bs' e =>
    rw [serialize_pyStr] at h
    cases h
    exact mkEnvelope_length_ge2 _ _
  | pyUnicode bs' e =>
    rw [serialize_pyUnicode] at h
    cases h
    exact mkEnvelope_length_ge2 _ _
  | pyList xs e =>
    cases e
    · rw [serialize_of_getType_eq_zero (.pyList xs false) rfl] at h; cases h
    · rw [serialize_pyList] at h
      cases heb : serializeElems xs <;> rw [heb] at h <;> cases h
      exact mkEnvelope_length_ge2 _ _
  | pyTuple xs e =>
    cases e
    · rw [serialize_of_getType_eq_zero (.pyTuple xs false) rfl] at h; cases h
    · rw [serialize_pyTuple] at h
      cases heb : serializeElems xs <;> rw [heb] at h <;> cases h
      exact mkEnvelope_length_ge2 _ _
  | pyDict ps e =>
    cases e
    · rw [serialize_of_getType_eq_zero (.pyDict ps false) rfl] at h; cases h
    · rw [serialize_pyDict] at h
      cases heb : serializePairs ps <;> rw [heb] at h <;> cases h
      exact mkEnvelope_length_ge2 _ _
  | pySet xs e =>
    cases e
    · rw [serialize_of_getType_eq_zero (.pySet xs false) rfl] at h; cases h
    · rw [serialize_pySet] at h
      cases heb : serializeElems xs <;> rw [heb] at h <;> cases h
      exact mkEnvelope_length_ge2 _ _
  | pyFrozenSet xs e =>
    cases e
    · rw [serialize_of_getType_eq_zero (.pyFrozenSet xs false) rfl] at h; cases h
    · rw [serialize_pyFrozenSet] at h
      cases heb : serializeElems xs <;> rw [heb] at h <;> cases h
      exact mkEnvelope_length_ge2 _ _
  | pyBool b => rw [serialize_of_getType_eq_zero (.pyBool b) rfl] at h; cases h
  | pyNone =>
    rw [serialize_pyNone] at h
    cases h
    exact mkEnvelope_length_ge2 _ _
  | pyOther s => rw [serialize_of_getType_eq_zero (.pyOther s) rfl] at h; cases h

/-- A container body holds at least two bytes per element. -/
theorem serializeElems_length : ∀ {xs : List PyObj} {eb : List Nat},
    serializeElems xs = some eb → 2 * xs.length ≤ eb.length := by
  intro xs
  induction xs with
  | nil => intro eb h; cases h; simp
  | cons x xs ih =>
    intro eb h
    rw [serializeElems] at h
    cases hbx : serialize x <;> rw [hbx] at h
    · cases h
    · cases hbs : serializeElems xs <;> rw [hbs] at h
      · cases h
      · cases h
        have := serialize_length_ge2 hbx
        have := ih hbs
        simp only [List.length_append, List.length_cons]
        omega

/-- A mapping body holds at least four bytes per entry. -/
theorem serializePairs_length : ∀ {ps : List (PyObj × PyObj)} {pb : List Nat},
    serializePairs ps = some pb → 4 * ps.length ≤ pb.length := by
  intro ps
  induction ps with
  | nil => intro pb h; cases h; simp
  | cons kv ps ih =>
    obtain ⟨k, v⟩ := kv
    intro pb h
    rw [serializePairs] at h
    cases hbk : serialize k <;> rw [hbk] at h
    · cases h
    · cases hbv : serialize v <;> rw [hbv] at h
      · cases h
      · cases hbs : serializePairs ps <;> rw [hbs] at h
        · cases h
        · cases h
          have := serialize_length_ge2 hbk
          have := serialize_length_ge2 hbv
          have := ih hbs
          simp only [List.length_append, List.length_cons]
          omega

/-! ### The round-trip theorem

The central lemma: a supported value serializes successfully, its envelope is
at least as long as the value's nesting depth, and decoding the envelope off
the front of any buffer with enough fuel returns exactly the value and the
remaining bytes.  (The `< 2 ^ 64` side condition is the C size type's range:
sizes are `unsigned long long` values.) -/

mutual

theorem serialize_roundtrip : ∀ v : PyObj, SupportedB v = true →
    ∃ bs, serialize v = some bs ∧ height v ≤ bs.length ∧
      ∀ fuel rest, height v ≤ fuel → bs.length < 2 ^ 64 →
        deserializeF fuel (bs ++ rest) = some (v, rest)
  | .pyInt v e, h => by
    have he : e = true := by simpa [SupportedB] using h
    subst he
    refine ⟨_, serialize_pyInt v, ?_, ?_⟩
    · have := mkEnvelope_length_ge2 (if v < 0 then NEG_INT_TYPE else INT_TYPE) (toBytesBE v.natAbs)
      simp [height]
      omega
    · intro fuel rest hfuel hlen
      obtain ⟨f, rfl⟩ : ∃ f, fuel = f + 1 := ⟨fuel - 1, by simp [height] at hfuel; omega⟩
      have hbl : (toBytesBE v.natAbs).length < 2 ^ 64 := by
        have := mkEnvelope_length (if v < 0 then NEG_INT_TYPE else INT_TYPE) (toBytesBE v.natAbs)
        omega
      rw [deserializeF, parseHeaders_mkEnvelope hbl]
      rcases lt_or_ge v 0 with hv | hv
      · simp only [if_pos hv]
        simp [NEG_INT_TYPE, INT_TYPE, List.take_left, List.drop_left, fromBytesBE_toBytesBE]
        rw [abs_of_neg hv]
        ring
      · simp only [if_neg (not_lt.mpr hv)]
        simp [INT_TYPE, List.take_left, List.drop_left, fromBytesBE_toBytesBE]
        exact hv
  | .pyLong v e, h => by
    have he : e = true := by simpa [SupportedB] using h
    subst he
    refine ⟨_, serialize_pyLong v, ?_, ?_⟩
    · have := mkEnvelope_length_ge2 (if v < 0 then NEG_LONG_TYPE else LONG_TYPE) (toBytesBE v.natAbs)
      simp [height]
      omega
    · intro fuel rest hfuel hlen
      obtain ⟨f, rfl⟩ : ∃ f, fuel = f + 1 := ⟨fuel - 1, by simp [height] at hfuel; omega⟩
      have hbl : (toBytesBE v.natAbs).length < 2 ^ 64 := by
        have := mkEnvelope_length (if v < 0 then NEG_LONG_TYPE else LONG_TYPE) (toBytesBE v.natAbs)
        omega
      rw [deserializeF, parseHeaders_mkEnvelope hbl]
      rcases lt_or_ge v 0 with hv | hv
      · simp only [if_pos hv]
        simp [NEG_LONG_TYPE, INT_TYPE, NEG_INT_TYPE, LONG_TYPE, List.take_left, List.drop_left,
          fromBytesBE_toBytesBE]
        rw [abs_of_neg hv]
        ring
      · simp only [if_neg (not_lt.mpr hv)]
        simp [LONG_TYPE, INT_TYPE, NEG_INT_TYPE, List.take_left, List.drop_left,
          fromBytesBE_toBytesBE]
        exact hv
  | .pyFloat bits e, h => by
    rw [SupportedB, Bool.and_eq_true] at h
    obtain ⟨he, hbits⟩ := h
    subst he
    have hbits : bits < 2 ^ 64 := of_decide_eq_true hbits
    refine ⟨_, serialize_pyFloat bits, ?_, ?_⟩
    · have := mkEnvelope_length_ge2 FLOAT_TYPE (toBytesBEFixed 8 bits)
      simp [height]
      omega
    · intro fuel rest hfuel hlen
      obtain ⟨f, rfl⟩ : ∃ f, fuel = f + 1 := ⟨fuel - 1, by simp [height] at hfuel; omega⟩
      have hbl : (toBytesBEFixed 8 bits).length < 2 ^ 64 := by
        rw [toBytesBEFixed_length]
        norm_num
      rw [deserializeF, parseHeaders_mkEnvelope hbl]
      simp only [FLOAT_TYPE, INT_TYPE, NEG_INT_TYPE, LONG_TYPE, NEG_LONG_TYPE]
      norm_num
      have ht : List.take 8 (toBytesBEFixed 8 bits ++ rest) = toBytesBEFixed 8 bits := by
        have := List.take_left (toBytesBEFixed 8 bits) rest
        rwa [toBytesBEFixed_length] at this
      have hd : List.drop 8 (toBytesBEFixed 8 bits ++ rest) = rest := by
        have := List.drop_left (toBytesBEFixed 8 bits) rest
        rwa [toBytesBEFixed_length] at this
      refine ⟨by rw [toBytesBEFixed_length]; omega, ?_, ?_⟩
      · rw [ht]
        exact fromBytesBE_toBytesBEFixed (by norm_num at hbits ⊢; omega)
      · rw [hd]
  | .pyStr bs' e, h => by
    refine ⟨_, serialize_pyStr bs' e, ?_, ?_⟩
    · have := mkEnvelope_length_ge2 BYTES_TYPE bs'
      simp [height]
      omega
    · intro fuel rest hfuel hlen
      obtain ⟨f, rfl⟩ : ∃ f, fuel = f + 1 := ⟨fuel - 1, by simp [height] at hfuel; omega⟩
      have he : e = true := by
        rw [SupportedB, Bool.and_eq_true] at h
        exact h.1
      subst he
      have hbl : bs'.length < 2 ^ 64 := by
        have := mkEnvelope_length BYTES_TYPE bs'
        omega
      rw [deserializeF, parseHeaders_mkEnvelope hbl]
      simp [BYTES_TYPE, INT_TYPE, NEG_INT_TYPE, LONG_TYPE, NEG_LONG_TYPE, FLOAT_TYPE,
        UNICODE_TYPE, List.take_left, List.drop_left]
  | .pyUnicode bs' e, h => by
    refine ⟨_, serialize_pyUnicode bs' e, ?_, ?_⟩
    · have := mkEnvelope_length_ge2 UNICODE_TYPE bs'
      simp [height]
      omega
    · intro fuel rest hfuel hlen
      obtain ⟨f, rfl⟩ : ∃ f, fuel = f + 1 := ⟨fuel - 1, by simp [height] at hfuel; omega⟩
      have he : e = true := by
        rw [SupportedB, Bool.and_eq_true] at h
        exact h.1
      subst he
      have hbl : bs'.length < 2 ^ 64 := by
        have := mkEnvelope_length UNICODE_TYPE bs'
        omega
      rw [deserializeF, parseHeaders_mkEnvelope hbl]
      simp [UNICODE_TYPE, INT_TYPE, NEG_INT_TYPE, LONG_TYPE, NEG_LONG_TYPE, FLOAT_TYPE,
        List.take_left, List.drop_left]
  | .pyList xs e, h => by
    rw [SupportedB, Bool.and_eq_true] at h
    obtain ⟨he, hxs⟩ := h
    subst he
    obtain ⟨eb, heb, hebh, hebcnt, hdec⟩ := serializeElems_roundtrip xs hxs
    refine ⟨mkEnvelope LIST_TYPE (encodeSize xs.length ++ eb), ?_, ?_, ?_⟩
    · rw [serialize_pyList, heb]
      rfl
    · rw [mkEnvelope_length]
      have := encodeSize_length_pos xs.length
      simp only [height, List.length_append]
      omega
    · intro fuel rest hfuel hlen
      obtain ⟨f, rfl⟩ : ∃ f, fuel = f + 1 := ⟨fuel - 1, by simp [height] at hfuel; omega⟩
      have hL : (encodeSize xs.length ++ eb).length < 2 ^ 64 := by
        have := mkEnvelope_length LIST_TYPE (encodeSize xs.length ++ eb)
        omega
      have hebl : eb.length < 2 ^ 64 := by
        simp only [List.length_append] at hL
        omega
      have hcnt : xs.length < 2 ^ 64 := by omega
      rw [deserializeF, parseHeaders_mkEnvelope hL]
      have hfel : heightElems xs ≤ f := by simp [height] at hfuel; omega
      simp only [LIST_TYPE, INT_TYPE, NEG_INT_TYPE, LONG_TYPE, NEG_LONG_TYPE, FLOAT_TYPE,
        UNICODE_TYPE, BYTES_TYPE, List.append_assoc]
      norm_num
      simp only [decodeSize_encodeSize hcnt, hdec f rest hfel hebl]
  | .pyTuple xs e, h => by
    rw [SupportedB, Bool.and_eq_true] at h
    obtain ⟨he, hxs⟩ := h
    subst he
    obtain ⟨eb, heb, hebh, hebcnt, hdec⟩ := serializeElems_roundtrip xs hxs
    refine ⟨mkEnvelope TUPLE_TYPE (encodeSize xs.length ++ eb), ?_, ?_, ?_⟩
    · rw [serialize_pyTuple, heb]
      rfl
    · rw [mkEnvelope_length]
      have := encodeSize_length_pos xs.length
      simp only [height, List.length_append]
      omega
    · intro fuel rest hfuel hlen
      obtain ⟨f, rfl⟩ : ∃ f, fuel = f + 1 := ⟨fuel - 1, by simp [height] at hfuel; omega⟩
      have hL : (encodeSize xs.length ++ eb).length < 2 ^ 64 := by
        have := mkEnvelope_length TUPLE_TYPE (encodeSize xs.length ++ eb)
        omega
      have hebl : eb.length < 2 ^ 64 := by
        simp only [List.length_append] at hL
        omega
      have hcnt : xs.length < 2 ^ 64 := by omega
      rw [deserializeF, parseHeaders_mkEnvelope hL]
      have hfel : heightElems xs ≤ f := by simp [height] at hfuel; omega
      simp only [TUPLE_TYPE, INT_TYPE, NEG_INT_TYPE, LONG_TYPE, NEG_LONG_TYPE, FLOAT_TYPE,
        UNICODE_TYPE, BYTES_TYPE, LIST_TYPE, List.append_assoc]
      norm_num
      simp only [decodeSize_encodeSize hcnt, hdec f rest hfel hebl]
  | .pyDict ps e, h => by
    rw [SupportedB, Bool.and_eq_true] at h
    obtain ⟨he, hps⟩ := h
    subst he
    obtain ⟨pb, hpb, hpbh, hpbcnt, hdec⟩ := serializePairs_roundtrip ps hps
    refine ⟨mkEnvelope DICT_TYPE (encodeSize ps.length ++ pb), ?_, ?_, ?_⟩
    · rw [serialize_pyDict, hpb]
      rfl
    · rw [mkEnvelope_length]
      have := encodeSize_length_pos ps.length
      simp only [height, List.length_append]
      omega
    · intro fuel rest hfuel hlen
      obtain ⟨f, rfl⟩ : ∃ f, fuel = f + 1 := ⟨fuel - 1, by simp [height] at hfuel; omega⟩
      have hL : (encodeSize ps.length ++ pb).length < 2 ^ 64 := by
        have := mkEnvelope_length DICT_TYPE (encodeSize ps.length ++ pb)
        omega
      have hpbl : pb.length < 2 ^ 64 := by
        simp only [List.length_append] at hL
        omega
      have hcnt : ps.length < 2 ^ 64 := by omega
      rw [deserializeF, parseHeaders_mkEnvelope hL]
      have hfps : heightPairs ps ≤ f := by simp [height] at hfuel; omega
      simp only [DICT_TYPE, INT_TYPE, NEG_INT_TYPE, LONG_TYPE, NEG_LONG_TYPE, FLOAT_TYPE,
        UNICODE_TYPE, BYTES_TYPE, LIST_TYPE, TUPLE_TYPE, List.append_assoc]
      norm_num
      simp only [decodeSize_encodeSize hcnt, hdec f rest hfps hpbl]
  | .pySet xs e, h => by
    rw [SupportedB, Bool.and_eq_true] at h
    obtain ⟨he, hxs⟩ := h
    subst he
    obtain ⟨eb, heb, hebh, hebcnt, hdec⟩ := serializeElems_roundtrip xs hxs
    refine ⟨mkEnvelope SET_TYPE (encodeSize xs.length ++ eb), ?_, ?_, ?_⟩
    · rw [serialize_pySet, heb]
      rfl
    · rw [mkEnvelope_length]
      have := encodeSize_length_pos xs.length
      simp only [height, List.length_append]
      omega
    · intro fuel rest hfuel hlen
      obtain ⟨f, rfl⟩ : ∃ f, fuel = f + 1 := ⟨fuel - 1, by simp [height] at hfuel; omega⟩
      have hL : (encodeSize xs.length ++ eb).length < 2 ^ 64 := by
        have := mkEnvelope_length SET_TYPE (encodeSize xs.length ++ eb)
        omega
      have hebl : eb.length < 2 ^ 64 := by
        simp only [List.length_append] at hL
        omega
      have hcnt : xs.length < 2 ^ 64 := by omega
      rw [deserializeF, parseHeaders_mkEnvelope hL]
      have hfel : heightElems xs ≤ f := by simp [height] at hfuel; omega
      simp only [SET_TYPE, INT_TYPE, NEG_INT_TYPE, LONG_TYPE, NEG_LONG_TYPE, FLOAT_TYPE,
        UNICODE_TYPE, BYTES_TYPE, LIST_TYPE, TUPLE_TYPE, DICT_TYPE, List.append_assoc]
      norm_num
      simp only [decodeSize_encodeSize hcnt, hdec f rest hfel hebl]
  | .pyFrozenSet xs e, h => by
    rw [SupportedB, Bool.and_eq_true] at h
    obtain ⟨he, hxs⟩ := h
    subst he
    obtain ⟨eb, heb, hebh, hebcnt, hdec⟩ := serializeElems_roundtrip xs hxs
    refine ⟨mkEnvelope FROZEN_SET_TYPE (encodeSize xs.length ++ eb), ?_, ?_, ?_⟩
    · rw [serialize_pyFrozenSet, heb]
      rfl
    · rw [mkEnvelope_length]
      have := encodeSize_length_pos xs.length
      simp only [height, List.length_append]
      omega
    · intro fuel rest hfuel hlen
      obtain ⟨f, rfl⟩ : ∃ f, fuel = f + 1 := ⟨fuel - 1, by simp [height] at hfuel; omega⟩
      have hL : (encodeSize xs.length ++ eb).length < 2 ^ 64 := by
        have := mkEnvelope_length FROZEN_SET_TYPE (encodeSize xs.length ++ eb)
        omega
      have hebl : eb.length < 2 ^ 64 := by
        simp only [List.length_append] at hL
        omega
      have hcnt : xs.length < 2 ^ 64 := by omega
      rw [deserializeF, parseHeaders_mkEnvelope hL]
      have hfel : heightElems xs ≤ f := by simp [height] at hfuel; omega
      simp only [FROZEN_SET_TYPE, INT_TYPE, NEG_INT_TYPE, LONG_TYPE, NEG_LONG_TYPE, FLOAT_TYPE,
        UNICODE_TYPE, BYTES_TYPE, LIST_TYPE, TUPLE_TYPE, DICT_TYPE, SET_TYPE, List.append_assoc]
      norm_num
      simp only [decodeSize_encodeSize hcnt, hdec f rest hfel hebl]
  | .pyBool b, h => by simp [SupportedB] at h
  | .pyNone, h => by
    refine ⟨_, serialize_pyNone, ?_, ?_⟩
    · simp [height, mkEnvelope_length]
    · intro fuel rest hfuel hlen
      obtain ⟨f, rfl⟩ : ∃ f, fuel = f + 1 := ⟨fuel - 1, by simp [height] at hfuel; omega⟩
      rw [deserializeF, parseHeaders_mkEnvelope (by norm_num)]
      simp [NONE_TYPE, INT_TYPE, NEG_INT_TYPE, LONG_TYPE, NEG_LONG_TYPE, FLOAT_TYPE,
        UNICODE_TYPE, BYTES_TYPE, LIST_TYPE, TUPLE_TYPE, DICT_TYPE, SET_TYPE,
        FROZEN_SET_TYPE, BOOL_TRUE_TYPE, BOOL_FALSE_TYPE]
  | .pyOther s, h => by simp [SupportedB] at h

theorem serializeElems_roundtrip : ∀ xs : List PyObj, SupportedElemsB xs = true →
    ∃ eb, serializeElems xs = some eb ∧ heightElems xs ≤ eb.length ∧
      2 * xs.length ≤ eb.length ∧
      ∀ fuel rest, heightElems xs ≤ fuel → eb.length < 2 ^ 64 →
        decodeElems (deserializeF fuel) xs.length (eb ++ rest) = some (xs, rest)
  | [], _ => by
    refine ⟨[], rfl, by simp [heightElems], by simp, ?_⟩
    intro fuel rest _ _
    simp [decodeElems]
  | x :: xs, h => by
    rw [SupportedElemsB, Bool.and_eq_true] at h
    obtain ⟨hx, hxs⟩ := h
    obtain ⟨bx, hbx, hbxh, hbxdec⟩ := serialize_roundtrip x hx
    obtain ⟨ebs, hebs, hebsh, hebscnt, hebsdec⟩ := serializeElems_roundtrip xs hxs
    refine ⟨bx ++ ebs, ?_, ?_, ?_, ?_⟩
    · rw [serializeElems, hbx, hebs]
    · simp only [heightElems, List.length_append]
      omega
    · have := serialize_length_ge2 hbx
      simp only [List.length_cons, List.length_append]
      omega
    · intro fuel rest hfuel hlen
      simp only [List.length_append] at hlen
      simp only [heightElems, max_le_iff] at hfuel
      simp only [List.length_cons, decodeElems, List.append_assoc]
      simp only [hbxdec fuel (ebs ++ rest) hfuel.1 (by omega),
        hebsdec fuel rest hfuel.2 (by omega)]

theorem serializePairs_roundtrip : ∀ ps : List (PyObj × PyObj), SupportedPairsB ps = true →
    ∃ pb, serializePairs ps = some pb ∧ heightPairs ps ≤ pb.length ∧
      4 * ps.length ≤ pb.length ∧
      ∀ fuel rest, heightPairs ps ≤ fuel → pb.length < 2 ^ 64 →
        decodePairs (deserializeF fuel) ps.length (pb ++ rest) = some (ps, rest)
  | [], _ => by
    refine ⟨[], rfl, by simp [heightPairs], by simp, ?_⟩
    intro fuel rest _ _
    simp [decodePairs]
  | (k, v) :: ps, h => by
    rw [SupportedPairsB, Bool.and_eq_true, Bool.and_eq_true] at h
    obtain ⟨⟨hk, hv⟩, hps⟩ := h
    obtain ⟨bk, hbk, hbkh, hbkdec⟩ := serialize_roundtrip k hk
    obtain ⟨bv, hbv, hbvh, hbvdec⟩ := serialize_roundtrip v hv
    obtain ⟨pbs, hpbs, hpbsh, hpbscnt, hpbsdec⟩ := serializePairs_roundtrip ps hps
    refine ⟨bk ++ bv ++ pbs, ?_, ?_, ?_, ?_⟩
    · rw [serializePairs, hbk, hbv, hpbs]
    · simp only [heightPairs, List.length_append]
      omega
    · have := serialize_length_ge2 hbk
      have := serialize_length_ge2 hbv
      simp only [List.length_cons, List.length_append]
      omega
    · intro fuel rest hfuel hlen
      simp only [List.length_append] at hlen
      simp only [heightPairs, max_le_iff] at hfuel
      simp only [List.length_cons, decodePairs, List.append_assoc]
      simp only [hbkdec fuel (bv ++ (pbs ++ rest)) hfuel.1.1 (by omega),
        hbvdec fuel (pbs ++ rest) hfuel.1.2 (by omega),
        hpbsdec fuel rest hfuel.2 (by omega)]

end

/-! ### Reflexivity of the codec's equality -/

theorem pyMem_of_mem {x : PyObj} {ys : List PyObj} (hmem : x ∈ ys)
    (hrefl : pyEq x x = true) : pyMem x ys = true := by
  induction ys with
  | nil => cases hmem
  | cons y ys ih =>
    rw [pyMem, Bool.or_eq_true]
    rcases List.mem_cons.mp hmem with rfl | hmem'
    · exact Or.inl hrefl
    · exact Or.inr (ih hmem')

theorem pyMemRev_of_mem {y : PyObj} {xs : List PyObj} (hmem : y ∈ xs)
    (hrefl : pyEq y y = true) : pyMemRev xs y = true := by
  induction xs with
  | nil => cases hmem
  | cons x xs ih =>
    rw [pyMemRev, Bool.or_eq_true]
    rcases List.mem_cons.mp hmem with rfl | hmem'
    · exact Or.inl hrefl
    · exact Or.inr (ih hmem')

theorem pyEqMember_of {xs ys : List PyObj} (h : ∀ x ∈ xs, pyMem x ys = true) :
    pyEqMember xs ys = true := by
  induction xs with
  | nil => rw [pyEqMember]
  | cons x xs ih =>
    rw [pyEqMember, Bool.and_eq_true]
    exact ⟨h x (List.mem_cons_self x xs), ih fun x' hx' => h x' (List.mem_cons_of_mem x hx')⟩

theorem pyEqCovered_of {xs ys : List PyObj} (h : ∀ y ∈ ys, pyMemRev xs y = true) :
    pyEqCovered xs ys = true := by
  induction ys with
  | nil => rw [pyEqCovered]
  | cons y ys ih =>
    rw [pyEqCovered, Bool.and_eq_true]
    exact ⟨h y (List.mem_cons_self y ys), ih fun y' hy' => h y' (List.mem_cons_of_mem y hy')⟩

theorem pyEqList_of {xs : List PyObj} (h : ∀ x ∈ xs, pyEq x x = true) :
    pyEqList xs xs = true := by
  induction xs with
  | nil => rw [pyEqList]
  | cons x xs ih =>
    rw [pyEqList, Bool.and_eq_true]
    exact ⟨h x (List.mem_cons_self x xs), ih fun x' hx' => h x' (List.mem_cons_of_mem x hx')⟩

theorem pyEqPairs_of {ps : List (PyObj × PyObj)} (h : ∀ p ∈ ps, pyEq p.1 p.1 = true ∧ pyEq p.2 p.2 = true) :
    pyEqPairs ps ps = true := by
  induction ps with
  | nil => rw [pyEqPairs]
  | cons p ps ih =>
    obtain ⟨k, v⟩ := p
    rw [pyEqPairs, Bool.and_eq_true, Bool.and_eq_true]
    exact ⟨⟨(h (k, v) (List.mem_cons_self _ _)).1, (h (k, v) (List.mem_cons_self _ _)).2⟩,
      ih fun p' hp' => h p' (List.mem_cons_of_mem _ hp')⟩

/-- The codec's equality is reflexive: every value equals itself, which for
sets means every element finds itself as its own membership witness. -/
theorem pyEq_refl (v : PyObj) : pyEq v v = true := by
  have main : ∀ n : Nat, ∀ w : PyObj, sizeOf w ≤ n → pyEq w w = true := by
    intro n
    induction n with
    | zero => intro w hw; cases w <;> simp at hw
    | succ n ih =>
      intro w hw
      cases w with
      | pyInt a e => simp [pyEq]
      | pyLong a e => simp [pyEq]
      | pyFloat a e => simp [pyEq]
      | pyStr a e => simp [pyEq]
      | pyUnicode a e => simp [pyEq]
      | pyBool b => simp [pyEq]
      | pyNone => rw [pyEq]
      | pyOther s => simp [pyEq]
      | pyList xs e =>
        rw [pyEq]
        refine pyEqList_of fun x hx => ih x ?_
        have h1 := List.sizeOf_lt_of_mem hx
        simp only [PyObj.pyList.sizeOf_spec] at hw
        omega
      | pyTuple xs e =>
        rw [pyEq]
        refine pyEqList_of fun x hx => ih x ?_
        have h1 := List.sizeOf_lt_of_mem hx
        simp only [PyObj.pyTuple.sizeOf_spec] at hw
        omega
      | pyDict ps e =>
        rw [pyEq]
        refine pyEqPairs_of fun p hp => ?_
        have h1 := List.sizeOf_lt_of_mem hp
        obtain ⟨k, v'⟩ := p
        simp only [PyObj.pyDict.sizeOf_spec] at hw
        simp only [Prod.mk.sizeOf_spec] at h1
        constructor
        · exact ih k (by omega)
        · exact ih v' (by omega)
      | pySet xs e =>
        rw [pyEq, Bool.and_eq_true]
        have hel : ∀ x ∈ xs, pyEq x x = true := by
          intro x hx
          have h1 := List.sizeOf_lt_of_mem hx
          refine ih x ?_
          simp only [PyObj.pySet.sizeOf_spec] at hw
          omega
        exact ⟨pyEqMember_of fun x hx => pyMem_of_mem hx (hel x hx),
          pyEqCovered_of fun y hy => pyMemRev_of_mem hy (hel y hy)⟩
      | pyFrozenSet xs e =>
        rw [pyEq, Bool.and_eq_true]
        have hel : ∀ x ∈ xs, pyEq x x = true := by
          intro x hx
          have h1 := List.sizeOf_lt_of_mem hx
          refine ih x ?_
          simp only [PyObj.pyFrozenSet.sizeOf_spec] at hw
          omega
        exact ⟨pyEqMember_of fun x hx => pyMem_of_mem hx (hel x hx),
          pyEqCovered_of fun y hy => pyMemRev_of_mem hy (hel y hy)⟩
  exact main (sizeOf v) v le_rfl

/-! ### Arbitrarily deep nesting -/

/-- A list nested `d` containers deep around a `None` payload. -/
def nest : Nat → PyObj
  | 0 => .pyNone
  | d + 1 => .pyList [nest d] true

theorem nest_supported : ∀ d : Nat, SupportedB (nest d) = true
  | 0 => rfl
  | d + 1 => by
    rw [nest, SupportedB, SupportedElemsB, SupportedElemsB, nest_supported d]
    rfl

theorem nest_height : ∀ d : Nat, height (nest d) = d + 1
  | 0 => rfl
  | d + 1 => by
    rw [nest, height, heightElems, heightElems, nest_height d]
    omega

/-- The envelope of `nest d` is small: at most `11 d + 2` bytes, so the size
fields stay far inside the 64-bit range for every remotely realizable
depth. -/
theorem nest_serialize_length : ∀ d : Nat, d < 2 ^ 59 →
    ∃ bs, serialize (nest d) = some bs ∧ bs.length ≤ 11 * d + 2
  | 0, _ => ⟨[NONE_TYPE, 128], by constructor <;> rfl⟩
  | d + 1, h => by
    obtain ⟨bs, hbs, hlen⟩ := nest_serialize_length d (by omega)
    refine ⟨mkEnvelope LIST_TYPE (encodeSize 1 ++ (bs ++ [])), ?_, ?_⟩
    · show serialize (.pyList [nest d] true) = _
      rw [serialize_pyList]
      have hel : serializeElems [nest d] = some (bs ++ []) := by
        rw [serializeElems, hbs, serializeElems]
      rw [hel]
      rfl
    · rw [mkEnvelope_length]
      have h9 : (encodeSize (encodeSize 1 ++ (bs ++ [])).length).length ≤ 9 := by
        apply encodeSize_length_le
        have h59 : (2 : Nat) ^ 59 = 576460752303423488 := by norm_num
        have h64 : (2 : Nat) ^ 64 = 18446744073709551616 := by norm_num
        simp only [List.length_append, List.length_nil, encodeSize]
        norm_num
        omega
      simp only [List.length_append, List.length_nil, encodeSize] at *
      norm_num at *
      omega

/-! ### Unrecognized tags -/

/-- The tag table of the `deserialize` dispatch switch
(src/kimchi/utils/serialize.c, lines 146-185): exactly the fifteen tag
constants have a case; any other tag byte falls through to the
unrecognized-type error at lines 186-190. -/
def recognizedTag (t : Nat) : Bool :=
  t == INT_TYPE || t == NEG_INT_TYPE || t == LONG_TYPE || t == NEG_LONG_TYPE ||
  t == FLOAT_TYPE || t == UNICODE_TYPE || t == BYTES_TYPE || t == LIST_TYPE ||
  t == TUPLE_TYPE || t == DICT_TYPE || t == SET_TYPE || t == FROZEN_SET_TYPE ||
  t == BOOL_TRUE_TYPE || t == BOOL_FALSE_TYPE || t == NONE_TYPE

/-- C4 helper: the dispatch switch maps every unrecognized tag to the error
return, whatever the parsed size and remaining bytes. -/
theorem deserializeF_unrecognized {t : Nat} (h : recognizedTag t = false)
    (fuel : Nat) (buf : List Nat) : deserializeF fuel (t :: buf) = none := by
  simp only [recognizedTag, Bool.or_eq_false_iff, beq_eq_false_iff_ne, ne_eq,
    INT_TYPE, NEG_INT_TYPE, LONG_TYPE, NEG_LONG_TYPE, FLOAT_TYPE, UNICODE_TYPE,
    BYTES_TYPE, LIST_TYPE, TUPLE_TYPE, DICT_TYPE, SET_TYPE, FROZEN_SET_TYPE,
    BOOL_TRUE_TYPE, BOOL_FALSE_TYPE, NONE_TYPE] at h
  obtain ⟨⟨⟨⟨⟨⟨⟨⟨⟨⟨⟨⟨⟨⟨h1, h2⟩, h3⟩, h4⟩, h5⟩, h6⟩, h7⟩, h8⟩, h9⟩, h10⟩, h11⟩, h12⟩, h13⟩, h14⟩, h15⟩ := h
  cases fuel with
  | zero => rw [deserializeF]
  | succ f =>
    rw [deserializeF]
    simp only [parseHeaders]
    cases hd : decodeSize buf with
    | none => rfl
    | some szrest =>
      obtain ⟨sz, rest'⟩ := szrest
      by_cases hlt : rest'.length < sz
      · simp [hlt]
      · simp only [hlt, if_false]
        simp only [INT_TYPE, NEG_INT_TYPE, LONG_TYPE, NEG_LONG_TYPE, FLOAT_TYPE, UNICODE_TYPE,
          BYTES_TYPE, LIST_TYPE, TUPLE_TYPE, DICT_TYPE, SET_TYPE, FROZEN_SET_TYPE,
          BOOL_TRUE_TYPE, BOOL_FALSE_TYPE, NONE_TYPE]
        rw [if_neg h1, if_neg h2, if_neg h3, if_neg h4, if_neg h5, if_neg h6, if_neg h7,
          if_neg h8, if_neg h9, if_neg h10, if_neg h11, if_neg h12, if_neg h13, if_neg h14,
          if_neg h15]

/-! ## The claims -/

/-- C1: Round-trip.  For every supported value `v`, deserializing the bytes
produced by serializing `v` yields a value equal to `v` under the codec's
equality (structural for scalars, lists, tuples and mappings by entries;
set-membership equality for sets and frozensets), consuming the whole
envelope.  The `< 2 ^ 64` hypothesis is the range of the C size type
(`unsigned long long`). -/
theorem C1_roundtrip (v : PyObj) (bs : List Nat) (hsupp : SupportedB v = true)
    (hser : serialize v = some bs) (hlen : bs.length < 2 ^ 64) :
    ∃ w, deserialize bs = some (w, []) ∧ pyEq v w = true := by
  obtain ⟨bs', hbs', hh, hdec⟩ := serialize_roundtrip v hsupp
  rw [hser] at hbs'
  obtain rfl := Option.some.inj hbs'
  refine ⟨v, ?_, pyEq_refl v⟩
  rw [deserialize]
  have := hdec bs.length [] hh hlen
  simpa using this

/-- Witness for C1 at a nested value exercising every container kind and
several scalars. -/
theorem C1_roundtrip_witness :
    ∃ w, deserialize [8, 163, 134, 1, 129, 5, 4, 129, 3, 5, 130, 104, 105, 10, 135, 129, 6,
        129, 97, 9, 129, 128, 11, 131, 129, 13, 128, 7, 136, 64, 9, 33, 251, 84, 68, 45, 24] =
        some (w, []) ∧
      pyEq (.pyList [.pyInt 5 true, .pyLong (-3) true, .pyStr [104, 105] true,
        .pyDict [(.pyUnicode [97] true, .pyTuple [] true)] true, .pySet [.pyNone] true,
        .pyFloat 4614256656552045848 true] true) w = true :=
  C1_roundtrip
    (.pyList [.pyInt 5 true, .pyLong (-3) true, .pyStr [104, 105] true,
      .pyDict [(.pyUnicode [97] true, .pyTuple [] true)] true, .pySet [.pyNone] true,
      .pyFloat 4614256656552045848 true] true)
    [8, 163, 134, 1, 129, 5, 4, 129, 3, 5, 130, 104, 105, 10, 135, 129, 6, 129, 97, 9, 129,
      128, 11, 131, 129, 13, 128, 7, 136, 64, 9, 33, 251, 84, 68, 45, 24]
    rfl rfl (by norm_num)

/-- C2: the claim says type detection assigns the boolean tags to boolean
host values and serialization of a boolean succeeds.  The code does the
opposite: `getType` (src/pump/utils/types.c) has no boolean branch — a
`bool` instance fails every `CheckExact` test (its type is exactly `bool`,
not `int`/`long`), is no string subclass, and is not `Py_None` — so
`getType` returns 0 and `serialize` fails at its `getType` gate (lines
38-40) without writing any output, even though `serialize.c` carries
`BOOL_TRUE_TYPE`/`BOOL_FALSE_TYPE` dispatch cases and the repository README
lists booleans as supported.  This theorem evaluates the code at the failing
inputs. -/
theorem C2_boolean_detection_bug :
    getType (.pyBool true) = 0 ∧ getType (.pyBool false) = 0 ∧
    serializeC (.pyBool true) ⟨none, 0⟩ = (1, ⟨none, 0⟩) ∧
    serializeC (.pyBool false) ⟨none, 0⟩ = (1, ⟨none, 0⟩) :=
  ⟨rfl, rfl, rfl, rfl⟩

/-- The encode-side assertion of C3: some configured nesting-depth bound
exists past which serialization fails instead of recursing. -/
def encodeDepthBounded : Prop :=
  ∃ bound : Nat, ∀ v : PyObj, bound < height v → serialize v = none

/-- The decode-side assertion of C3: some configured nesting-depth bound
exists past which decoding an encoded value fails instead of recursing. -/
def decodeDepthBounded : Prop :=
  ∃ bound : Nat, ∀ (v : PyObj) (bs : List Nat), bound < height v →
    serialize v = some bs → deserialize bs = none

/-- C3 counterexample: the claim — both the encode and the decode path
enforce a maximum container-nesting depth, failing beyond it — is false: no
bound exists on the encode path (so the conjunction fails), because
`serialize` succeeds on `nest (bound + 1)` for every candidate bound. -/
theorem C3_counterexample : ¬ (encodeDepthBounded ∧ decodeDepthBounded) := by
  rintro ⟨⟨bound, hb⟩, -⟩
  obtain ⟨bs, hbs, -, -⟩ := serialize_roundtrip (nest (bound + 1)) (nest_supported _)
  have hnone := hb (nest (bound + 1)) (by rw [nest_height]; omega)
  rw [hnone] at hbs
  cases hbs

/-- C3 amended: neither path enforces any nesting-depth bound.  For every
depth there is a supported value nested deeper that serializes successfully,
and (for every depth within the 64-bit size range of the format) its
serialization also deserializes back to it; recursion depth is limited only
by the host call stack, and no depth-exceeded error exists. -/
theorem C3_no_depth_limit :
    (∀ d : Nat, ∃ v : PyObj, d < height v ∧ (serialize v).isSome = true) ∧
    (∀ d : Nat, d < 2 ^ 59 →
      ∃ v bs, d < height v ∧ serialize v = some bs ∧ deserialize bs = some (v, [])) := by
  constructor
  · intro d
    obtain ⟨bs, hbs, -, -⟩ := serialize_roundtrip (nest d) (nest_supported d)
    exact ⟨nest d, by rw [nest_height]; omega, by rw [hbs]; rfl⟩
  · intro d hd
    obtain ⟨bs, hbs, hlen⟩ := nest_serialize_length d hd
    obtain ⟨bs', hbs', hh, hdec⟩ := serialize_roundtrip (nest d) (nest_supported d)
    rw [hbs] at hbs'
    obtain rfl := Option.some.inj hbs'
    refine ⟨nest d, bs, by rw [nest_height]; omega, hbs, ?_⟩
    rw [deserialize]
    have h59 : (2 : Nat) ^ 59 = 576460752303423488 := by norm_num
    have h64 : (2 : Nat) ^ 64 = 18446744073709551616 := by norm_num
    have hlt : bs.length < 2 ^ 64 := by omega
    have := hdec bs.length [] hh hlt
    simpa using this

/-- Witness for C3's amended statement at depth bound 5. -/
theorem C3_no_depth_limit_witness :
    (∃ v : PyObj, 5 < height v ∧ (serialize v).isSome = true) ∧
    (∃ v bs, 5 < height v ∧ serialize v = some bs ∧ deserialize bs = some (v, [])) :=
  ⟨C3_no_depth_limit.1 5, C3_no_depth_limit.2 5 (by norm_num)⟩

/-- C4: deserialization of any buffer whose first (tag) byte is not one of
the codec's defined tag constants fails and returns no value — an unknown
tag is never mapped to a default or fallback kind (`deserialize` falls
through its switch to the unrecognized-type error, lines 186-190 of
serialize.c). -/
theorem C4_unrecognized_tag (t : Nat) (h : recognizedTag t = false) (buf : List Nat) :
    deserialize (t :: buf) = none := by
  rw [deserialize]
  exact deserializeF_unrecognized h _ _

/-- Witness for C4 at tag byte 42 over a well-formed remainder. -/
theorem C4_unrecognized_tag_witness : deserialize [42, 128] = none :=
  C4_unrecognized_tag 42 (by decide) [128]

/-- C5: for every host value the type detector rejects (`getType` returns 0,
which is how the code recognizes a value with no corresponding Value
variant, `pyOther` being the canonical case), `serialize` fails with the
nonzero status 1 at its `getType` gate (lines 38-40) before any bytes are
written: the caller's `out`/`outSize` state is returned unmodified, so no
partial envelope is ever produced. -/
theorem C5_unsupported_type_mismatch (obj : PyObj) (h : getType obj = 0) (s : SerializeOut) :
    serializeC obj s = (1, s) ∧ (serializeC obj s).1 ≠ 0 := by
  have hn : serialize obj = none := serialize_of_getType_eq_zero obj h
  refine ⟨?_, ?_⟩ <;> simp [serializeC, hn]

/-- Witness for C5 at an object of unknown type with a caller state holding
a previous value, showing it survives untouched. -/
theorem C5_unsupported_type_mismatch_witness :
    serializeC (.pyOther "object") ⟨some [7, 7], 2⟩ = (1, ⟨some [7, 7], 2⟩) ∧
    (serializeC (.pyOther "object") ⟨some [7, 7], 2⟩).1 ≠ 0 :=
  C5_unsupported_type_mismatch (.pyOther "object") rfl ⟨some [7, 7], 2⟩

/-- C6: VarSize round-trip and boundary.  Decoding the encoding of any size
in the C size type's range recovers it exactly; a size of at most 127 is the
single byte `0x80 ||| n = 128 + n` (high bit set, value in the low 7 bits);
a size of at least 128 is encoded with a first byte, high bit clear, holding
the count of following minimal big-endian magnitude bytes, which decode back
to the size. -/
theorem C6_varsize_boundary :
    (∀ n rest, n < 2 ^ 64 → decodeSize (encodeSize n ++ rest) = some (n, rest)) ∧
    (∀ n, n ≤ 127 → encodeSize n = [128 + n]) ∧
    (∀ n, 128 ≤ n → n < 2 ^ 64 →
      encodeSize n = (toBytesBE n).length :: toBytesBE n ∧
      (toBytesBE n).length < 128 ∧ fromBytesBE (toBytesBE n) = n) := by
  refine ⟨fun n rest h => decodeSize_encodeSize h rest, fun n h => by simp [encodeSize, h], ?_⟩
  intro n h128 h64
  refine ⟨by simp only [encodeSize]; rw [if_neg (by omega)], ?_, fromBytesBE_toBytesBE n⟩
  have : n < 256 ^ 8 := by norm_num at h64 ⊢; omega
  have := toBytesBE_length_le this
  omega

/-- Witness for C6 at the boundary sizes 127 and 128 and at `2 ^ 32`. -/
theorem C6_varsize_boundary_witness :
    decodeSize (encodeSize 4294967296 ++ [7]) = some (4294967296, [7]) ∧
    encodeSize 127 = [255] ∧
    encodeSize 128 = (toBytesBE 128).length :: toBytesBE 128 ∧
    (toBytesBE 128).length < 128 ∧ fromBytesBE (toBytesBE 128) = 128 :=
  ⟨C6_varsize_boundary.1 4294967296 [7] (by norm_num),
   C6_varsize_boundary.2.1 127 (by norm_num),
   C6_varsize_boundary.2.2 128 (by norm_num) (by norm_num)⟩

/-- C7: concatenated envelopes are independently decodable.  Decoding the
concatenation of two serializations yields the first value while consuming
exactly its envelope (the second serialization is the untouched remainder),
and decoding that remainder yields the second value, in order. -/
theorem C7_concatenated_envelopes (a b : PyObj) (sa sb : List Nat)
    (ha : SupportedB a = true) (hb : SupportedB b = true)
    (hsa : serialize a = some sa) (hsb : serialize b = some sb)
    (hlen : sa.length + sb.length < 2 ^ 64) :
    deserialize (sa ++ sb) = some (a, sb) ∧ deserialize sb = some (b, []) := by
  obtain ⟨sa', hsa', hha, hdeca⟩ := serialize_roundtrip a ha
  rw [hsa] at hsa'
  obtain rfl := Option.some.inj hsa'
  obtain ⟨sb', hsb', hhb, hdecb⟩ := serialize_roundtrip b hb
  rw [hsb] at hsb'
  obtain rfl := Option.some.inj hsb'
  constructor
  · rw [deserialize]
    exact hdeca (sa ++ sb).length sb (by simp only [List.length_append]; omega) (by omega)
  · rw [deserialize]
    have := hdecb sb.length [] hhb (by omega)
    simpa using this

/-- Witness for C7: the README's integer and string examples concatenated. -/
theorem C7_concatenated_envelopes_witness :
    deserialize [1, 129, 123, 5, 131, 49, 50, 51] =
      some (.pyInt 123 true, [5, 131, 49, 50, 51]) ∧
    deserialize [5, 131, 49, 50, 51] = some (.pyStr [49, 50, 51] true, []) :=
  C7_concatenated_envelopes (.pyInt 123 true) (.pyStr [49, 50, 51] true)
    [1, 129, 123] [5, 131, 49, 50, 51] rfl rfl rfl rfl (by norm_num)

/-- C8: encoding is deterministic.  `serialize` is a function of the value
alone — it consults no randomness, ordering salt, or padding — so any two
successful calls on the same value return identical byte sequences. -/
theorem C8_deterministic (v : PyObj) (bs1 bs2 : List Nat)
    (h1 : serialize v = some bs1) (h2 : serialize v = some bs2) : bs1 = bs2 := by
  rw [h1] at h2
  exact Option.some.inj h2

/-- Witness for C8 at the README's integer example. -/
theorem C8_deterministic_witness : ([1, 129, 123] : List Nat) = [1, 129, 123] :=
  C8_deterministic (.pyInt 123 true) [1, 129, 123] [1, 129, 123] rfl rfl

/-- C9: the integer zero is classified into the non-negative tag class.
`getType` picks `NEG_INT_TYPE` only when `PyLong_AsLongLong(obj) < 0` and
`NEG_LONG_TYPE` only when the long's `ob_size` field is negative (value
strictly negative), so zero gets `INT_TYPE` respectively `LONG_TYPE`. -/
theorem C9_zero_positive_tag :
    getType (.pyInt 0 true) = INT_TYPE ∧ getType (.pyLong 0 true) = LONG_TYPE ∧
    (∀ v : Int, getType (.pyInt v true) = NEG_INT_TYPE ↔ v < 0) ∧
    (∀ v : Int, getType (.pyLong v true) = NEG_LONG_TYPE ↔ v < 0) := by
  refine ⟨rfl, rfl, ?_, ?_⟩ <;> intro v <;> by_cases h : v < 0 <;>
    simp [getType, h, NEG_INT_TYPE, INT_TYPE, NEG_LONG_TYPE, LONG_TYPE]

/-- C10: type detection is exact for numbers and containers but not for
strings.  An instance of a strict subclass (`exactType = false`) of `int`,
`long`, `float`, `list`, `tuple`, `dict`, `set` or `frozenset` fails every
`CheckExact` test, so `getType` returns 0 and `serialize` fails; instances
of subclasses of the string and unicode types pass the non-exact
`PyString_Check` / `PyUnicode_Check` and are classified as their base
kind. -/
theorem C10_subclass_exactness :
    (∀ v : Int, getType (.pyInt v false) = 0 ∧ serialize (.pyInt v false) = none) ∧
    (∀ v : Int, getType (.pyLong v false) = 0 ∧ serialize (.pyLong v false) = none) ∧
    (∀ bits : Nat, getType (.pyFloat bits false) = 0 ∧ serialize (.pyFloat bits false) = none) ∧
    (∀ xs, getType (.pyList xs false) = 0 ∧ serialize (.pyList xs false) = none) ∧
    (∀ xs, getType (.pyTuple xs false) = 0 ∧ serialize (.pyTuple xs false) = none) ∧
    (∀ ps, getType (.pyDict ps false) = 0 ∧ serialize (.pyDict ps false) = none) ∧
    (∀ xs, getType (.pySet xs false) = 0 ∧ serialize (.pySet xs false) = none) ∧
    (∀ xs, getType (.pyFrozenSet xs false) = 0 ∧ serialize (.pyFrozenSet xs false) = none) ∧
    (∀ bs e, getType (.pyStr bs e) = STRING_TYPE) ∧
    (∀ bs e, getType (.pyUnicode bs e) = UNICODE_TYPE) :=
  ⟨fun _ => ⟨rfl, serialize_of_getType_eq_zero _ rfl⟩,
   fun _ => ⟨rfl, serialize_of_getType_eq_zero _ rfl⟩,
   fun _ => ⟨rfl, serialize_of_getType_eq_zero _ rfl⟩,
   fun _ => ⟨rfl, serialize_of_getType_eq_zero _ rfl⟩,
   fun _ => ⟨rfl, serialize_of_getType_eq_zero _ rfl⟩,
   fun _ => ⟨rfl, serialize_of_getType_eq_zero _ rfl⟩,
   fun _ => ⟨rfl, serialize_of_getType_eq_zero _ rfl⟩,
   fun _ => ⟨rfl, serialize_of_getType_eq_zero _ rfl⟩,
   fun _ _ => rfl, fun _ _ => rfl⟩
